import Mathlib

/-!
Verification of the stack-splitting and reorder engine of `glacios2warp.py`.

The embedding models the value flow of `split_mrc` (source lines 42-75):

* Text lines are `List Char`.  The five metadata patterns of the form
  `Label.*?([+-]?\d+\.\d+)` are modelled by an explicit scanner
  (`searchLabeled`): the leftmost occurrence of the label substring is
  located, then the first signed decimal number after it is captured
  (lazy scan, greedy digit runs), exactly as the Python regex engine
  resolves the pattern on a single line.
* Python floats are modelled as `ℚ`.  Every number the program touches
  is parsed from decimal text, and the only float operations used by
  the source are exact parsing, `round(x, 1)`, `==`, and decimal
  formatting; these are exact on the decimals appearing here, except for
  ties of `round`, which do not arise in any statement below (`round1`
  models `round(x, 1)` as round-half-up on the exact rational).
* A tilt-file line is abstracted to its float-parse result
  (`Option ℚ`): `some q` when `float(line.strip())` yields `q`, `none`
  when the line is not parseable as a float.
* The frame stack (`mrc.data`, split by `np.vsplit` into `n_slices`
  physical slices in storage order) is a `List α`; an output file is the
  pair of its path characters and the slice written to it.  Raised
  exceptions are `Except.error` values: `tiltParseFailure` models the
  `ValueError` from `float(...)` at line 64, `startAngleMissing` the
  unbound `start_angle` at line 65, `startAngleNotFound` the
  `ValueError` of `list.index` at line 65.
-/

namespace G2W

/-- Numeric value of a digit character run, most significant first. -/
def digitsVal (l : List Char) : ℕ :=
  l.foldl (fun a c => 10 * a + (c.toNat - 48)) 0

/-- Split an optional leading sign from a character list, returning the
sign as a rational factor, as in the group `[+-]?` of the source regex. -/
def signSplit (l : List Char) : ℚ × List Char :=
  match l with
  | [] => (1, [])
  | c :: r => if c = '+' then (1, r) else if c = '-' then (-1, r) else (1, c :: r)

/-- Match `\d+\.\d+` at the head of `m` (after the sign was split off),
returning the parsed value with the sign factor applied.  The digit runs
are greedy, as in the source regex. -/
def numAtCore (sgn : ℚ) (m : List Char) : Option ℚ :=
  match m.takeWhile Char.isDigit, m.dropWhile Char.isDigit with
  | [], _ => none
  | d1, '.' :: r2 =>
    match r2.takeWhile Char.isDigit with
    | [] => none
    | d2 => some (sgn * ((digitsVal d1 : ℚ) + (digitsVal d2 : ℚ) / 10 ^ d2.length))
  | _, _ => none

/-- Try to match `[+-]?\d+\.\d+` starting exactly at the head of `l`,
returning the parsed value of the captured text. -/
def numAt (l : List Char) : Option ℚ :=
  numAtCore (signSplit l).1 (signSplit l).2

/-- Lazy scan of `.*?([+-]?\d+\.\d+)`: the first position at which a
signed decimal number matches. -/
def findNum : List Char → Option ℚ
  | [] => none
  | c :: rest =>
    match numAt (c :: rest) with
    | some q => some q
    | none => findNum rest

/-- `matchesAt pat l` holds when `pat` occurs at the very front of `l`. -/
def matchesAt : List Char → List Char → Bool
  | [], _ => true
  | _ :: _, [] => false
  | p :: ps, c :: cs => p == c && matchesAt ps cs

/-- The remainder of `l` after the leftmost occurrence of `lab`, when
`lab` occurs in `l` at all. -/
def afterLabel (lab : List Char) : List Char → Option (List Char)
  | [] => if matchesAt lab [] then some [] else none
  | c :: rest =>
    if matchesAt lab (c :: rest) then some (List.drop lab.length (c :: rest))
    else afterLabel lab rest

/-- `re.search` of `Label.*?([+-]?\d+\.\d+)` on one line: value of the
first signed decimal number after the leftmost occurrence of the label. -/
def searchLabeled (lab l : List Char) : Option ℚ :=
  (afterLabel lab l).bind findNum

/-- Label of `start_angle_re` (source line 43). -/
def startLabel : List Char := "Start tilt angle".toList

/-- Label of `step_re` (source line 46). -/
def lowStepLabel : List Char := "Low tilt step".toList

/-- Label of `step_high_re` (source line 47). -/
def highStepLabel : List Char := "High tilt step".toList

/-- Label of `min_angle_re` (source line 44). -/
def minLabel : List Char := "Max negative tilt".toList

/-- Label of `max_angle_re` (source line 45). -/
def maxLabel : List Char := "Max positive tilt".toList

/-- The five scalar variables the metadata loop of `split_mrc` may bind
(source lines 49-61); `none` models a variable never assigned. -/
structure MetaAcc where
  start? : Option ℚ
  step? : Option ℚ
  stepHigh? : Option ℚ
  minAngle? : Option ℚ
  maxAngle? : Option ℚ
deriving DecidableEq

/-- One iteration of the metadata loop (source lines 51-61): the first
pattern of the if/elif chain that matches the line rebinds its variable. -/
def stepLine (acc : MetaAcc) (l : List Char) : MetaAcc :=
  match searchLabeled startLabel l with
  | some q => { acc with start? := some q }
  | none =>
    match searchLabeled lowStepLabel l with
    | some q => { acc with step? := some q }
    | none =>
      match searchLabeled highStepLabel l with
      | some q => { acc with stepHigh? := some q }
      | none =>
        match searchLabeled minLabel l with
        | some q => { acc with minAngle? := some q }
        | none =>
          match searchLabeled maxLabel l with
          | some q => { acc with maxAngle? := some q }
          | none => acc

/-- The whole metadata loop over the lines of the parameters file. -/
def scanMeta (lines : List (List Char)) : MetaAcc :=
  lines.foldl stepLine ⟨none, none, none, none, none⟩

/-- `round(x, 1)` of the source (line 64): round to one decimal place. -/
def round1 (q : ℚ) : ℚ := ((round (q * 10) : ℤ) : ℚ) / 10

/-- The comprehension `[round(float(x.strip()), 1) for x in f.readlines()]`
(source line 64): one float per line, each rounded to one decimal;
any unparseable line aborts with a `ValueError`, modelled as `none`. -/
def parse_angles : List (Option ℚ) → Option (List ℚ)
  | [] => some []
  | none :: _ => none
  | some q :: rest => (parse_angles rest).map (fun t => round1 q :: t)

/-- Python `list.index`: index of the first element equal to `x`, or a
`ValueError` (modelled as `none`) when `x` does not occur. -/
def pyIndex (x : ℚ) : List ℚ → Option ℕ
  | [] => none
  | a :: rest => if a = x then some 0 else (pyIndex x rest).map (· + 1)

/-- Decimal digit characters of `n`, most significant first, via the
fuel-based recursion `natCharsAux fuel n` (valid whenever `n ≤ fuel`). -/
def natCharsAux : ℕ → ℕ → List Char
  | 0, _ => []
  | fuel + 1, n =>
    if n = 0 then [] else natCharsAux fuel (n / 10) ++ [Nat.digitChar (n % 10)]

/-- Decimal representation of a natural number, as Python renders it. -/
def natChars (n : ℕ) : List Char := if n = 0 then ['0'] else natCharsAux n n

/-- Python's `f-string` format spec `03`: left-pad the decimal
representation with zeros to width three (source line 72). -/
def pad3 (n : ℕ) : List Char :=
  List.replicate (3 - (natChars n).length) '0' ++ natChars n

/-- Python's rendering of a one-decimal float value inside the output
file name (source line 72), e.g. `-10.0`. -/
def showAngle (q : ℚ) : List Char :=
  let z : ℤ := ⌊q * 10⌋
  (if z < 0 then ['-'] else []) ++ natChars (z.natAbs / 10) ++ '.' :: natChars (z.natAbs % 10)

/-- The output path of source line 72:
`{tilt_series_basename}_{order_idx:03}[{angle}]_fractions.mrc`. -/
def filenameChars (bn : List Char) (idx : ℕ) (angle : ℚ) : List Char :=
  bn ++ '_' :: (pad3 idx ++ '[' :: (showAngle angle ++ ']' :: "_fractions.mrc".toList))

/-- Source line 66 with `k = start_idx`:
`[i for i in range(start_idx, len(angles))] + [i for i in range(0, start_idx)]`. -/
def computeOrder (n k : ℕ) : List ℕ := List.range' k (n - k) ++ List.range k

/-- The exceptions `split_mrc` can raise before emitting files. -/
inductive SplitError where
  | tiltParseFailure
  | startAngleMissing
  | startAngleNotFound
deriving DecidableEq

/-- `split_mrc` (source lines 42-75): scan the parameters file, parse and
round the tilt angles, locate the pivot with `list.index`, build the
rotated order, and zip it with the physical slices and the angle list;
each triple yields one written file (path paired with the slice). -/
def split_mrc {α : Type} (metaLines : List (List Char)) (tiltLines : List (Option ℚ))
    (stack : List α) (bn : List Char) : Except SplitError (List (List Char × α)) :=
  match parse_angles tiltLines with
  | none => .error .tiltParseFailure
  | some angles =>
    match (scanMeta metaLines).start? with
    | none => .error .startAngleMissing
    | some start =>
      match pyIndex start angles with
      | none => .error .startAngleNotFound
      | some s =>
        let order := computeOrder angles.length (s + 1)
        .ok ((order.zip (stack.zip angles)).map (fun p => (filenameChars bn p.1 p.2.2, p.2.1)))

/-- Spec-side observer: the zero-padded order index embedded in an output
path, read back as a number (digits between the basename separator and
the opening bracket). -/
def idxField (bn path : List Char) : ℕ :=
  digitsVal ((path.drop (bn.length + 1)).takeWhile Char.isDigit)

/-- Spec-side observer: the rendered angle embedded in an output path
(characters between the brackets). -/
def angleField (bn path : List Char) : List Char :=
  (((path.drop (bn.length + 1)).dropWhile Char.isDigit).tail).takeWhile (fun c => c != ']')

/-- Basename used by the concrete scenarios. -/
def bnTS : List Char := "TS".toList

/-- Parameters file of the spec scenario: start tilt angle `0.00`. -/
def scenMeta : List (List Char) := ["Start tilt angle    = 0.00".toList]

/-- Tilt file of the spec scenario: angles `[0.0, -10.0, -20.0, 10.0, 20.0]`. -/
def scenTilt : List (Option ℚ) := [some 0, some (-10), some (-20), some 10, some 20]

/-- A five-slice stack; slices carry their physical index plus ten. -/
def scenStack : List ℕ := [10, 11, 12, 13, 14]

/-- The files `split_mrc` actually writes in the spec scenario: the slice
stored at physical index `i` goes to order index `order[i]` with angle
`angles[i]`. -/
def scenExpected : List (List Char × ℕ) :=
  [("TS_001[0.0]_fractions.mrc".toList, 10),
   ("TS_002[-10.0]_fractions.mrc".toList, 11),
   ("TS_003[-20.0]_fractions.mrc".toList, 12),
   ("TS_004[10.0]_fractions.mrc".toList, 13),
   ("TS_000[20.0]_fractions.mrc".toList, 14)]

/-! Section: Reading numbers back from rendered digit runs -/

theorem digitsVal_cons (c : Char) (l : List Char) :
    digitsVal (c :: l) = l.foldl (fun a d => 10 * a + (d.toNat - 48)) (c.toNat - 48) := by
  simp [digitsVal]

theorem digitsVal_append_singleton (l : List Char) (c : Char) :
    digitsVal (l ++ [c]) = 10 * digitsVal l + (c.toNat - 48) := by
  simp [digitsVal, List.foldl_append]

theorem digitsVal_replicate_zero (k : ℕ) (rest : List Char) :
    digitsVal (List.replicate k '0' ++ rest) = digitsVal rest := by
  induction k with
  | zero => simp
  | succ m ih =>
    have : List.replicate (m + 1) '0' ++ rest = '0' :: (List.replicate m '0' ++ rest) := by
      simp [List.replicate_succ]
    rw [this, digitsVal_cons]
    have h0 : ('0' : Char).toNat - 48 = 0 := rfl
    rw [h0]
    simpa [digitsVal] using ih

theorem digitChar_toNat {d : ℕ} (h : d < 10) : (Nat.digitChar d).toNat - 48 = d := by
  interval_cases d <;> rfl

theorem natCharsAux_val : ∀ (fuel n : ℕ), n ≤ fuel → digitsVal (natCharsAux fuel n) = n := by
  intro fuel
  induction fuel with
  | zero =>
    intro n hn
    interval_cases n
    rfl
  | succ m ih =>
    intro n hn
    by_cases h0 : n = 0
    · subst h0; rfl
    · have hdiv : n / 10 ≤ m := by
        have := Nat.div_lt_self (Nat.pos_of_ne_zero h0) (by norm_num : 1 < 10)
        omega
      rw [natCharsAux, if_neg h0, digitsVal_append_singleton, ih _ hdiv,
        digitChar_toNat (Nat.mod_lt n (by norm_num))]
      omega

theorem digitsVal_natChars (n : ℕ) : digitsVal (natChars n) = n := by
  by_cases h0 : n = 0
  · subst h0; rfl
  · rw [natChars, if_neg h0, natCharsAux_val n n le_rfl]

theorem digitsVal_pad3 (n : ℕ) : digitsVal (pad3 n) = n := by
  rw [pad3, digitsVal_replicate_zero, digitsVal_natChars]

theorem digitChar_isDigit {d : ℕ} (h : d < 10) : (Nat.digitChar d).isDigit = true := by
  interval_cases d <;> rfl

theorem natCharsAux_isDigit :
    ∀ (fuel n : ℕ), ∀ c ∈ natCharsAux fuel n, c.isDigit = true := by
  intro fuel
  induction fuel with
  | zero => intro n c hc; simp [natCharsAux] at hc
  | succ m ih =>
    intro n c hc
    by_cases h0 : n = 0
    · rw [natCharsAux, if_pos h0] at hc; simp at hc
    · rw [natCharsAux, if_neg h0] at hc
      rcases List.mem_append.mp hc with h | h
      · exact ih _ _ h
      · rcases List.mem_singleton.mp h with rfl
        exact digitChar_isDigit (Nat.mod_lt n (by norm_num))

theorem natChars_isDigit (n : ℕ) : ∀ c ∈ natChars n, c.isDigit = true := by
  intro c hc
  by_cases h0 : n = 0
  · rw [natChars, if_pos h0] at hc
    rcases List.mem_singleton.mp hc with rfl
    rfl
  · rw [natChars, if_neg h0] at hc
    exact natCharsAux_isDigit n n c hc

theorem pad3_isDigit (n : ℕ) : ∀ c ∈ pad3 n, c.isDigit = true := by
  intro c hc
  rcases List.mem_append.mp hc with h | h
  · rcases List.eq_of_mem_replicate h with rfl
    rfl
  · exact natChars_isDigit n c h

/-! Section: takeWhile / dropWhile across an appended stop character -/

theorem takeWhile_append_stop {p : Char → Bool} :
    ∀ (xs : List Char) (y : Char) (ys : List Char),
      (∀ c ∈ xs, p c = true) → p y = false → (xs ++ y :: ys).takeWhile p = xs := by
  intro xs
  induction xs with
  | nil => intro y ys _ hy; simp [List.takeWhile_cons, hy]
  | cons x xs ih =>
    intro y ys hx hy
    have hpx : p x = true := hx x (List.mem_cons_self x xs)
    simp only [List.cons_append, List.takeWhile_cons, hpx]
    simp [ih y ys (fun c hc => hx c (List.mem_cons_of_mem x hc)) hy]

theorem dropWhile_append_stop {p : Char → Bool} :
    ∀ (xs : List Char) (y : Char) (ys : List Char),
      (∀ c ∈ xs, p c = true) → p y = false → (xs ++ y :: ys).dropWhile p = y :: ys := by
  intro xs
  induction xs with
  | nil => intro y ys _ hy; simp [List.dropWhile_cons, hy]
  | cons x xs ih =>
    intro y ys hx hy
    have hpx : p x = true := hx x (List.mem_cons_self x xs)
    simp only [List.cons_append, List.dropWhile_cons, hpx]
    simp [ih y ys (fun c hc => hx c (List.mem_cons_of_mem x hc)) hy]

/-! Section: Reading the order index and angle back off an output path -/

theorem drop_basename (bn rest : List Char) :
    (bn ++ '_' :: rest).drop (bn.length + 1) = rest := by
  have : bn ++ '_' :: rest = (bn ++ ['_']) ++ rest := by simp
  rw [this, List.drop_left' (by simp)]

theorem idxField_filename (bn : List Char) (i : ℕ) (a : ℚ) :
    idxField bn (filenameChars bn i a) = i := by
  rw [idxField, filenameChars, drop_basename,
    takeWhile_append_stop (pad3 i) '[' _ (pad3_isDigit i) rfl, digitsVal_pad3]

theorem showAngle_ne_bracket (a : ℚ) : ∀ c ∈ showAngle a, (c != ']') = true := by
  intro c hc
  rw [showAngle] at hc
  have hdig : ∀ x : Char, x.isDigit = true → (x != ']') = true := by
    intro x hx
    rcases x with ⟨v, hv⟩
    simp only [bne_iff_ne, ne_eq]
    intro heq
    rw [heq] at hx
    simp [Char.isDigit] at hx
  rcases List.mem_append.mp hc with h | h
  · rcases List.mem_append.mp h with h' | h'
    · split at h'
      · rcases List.mem_singleton.mp h' with rfl; rfl
      · simp at h'
    · exact hdig c (natChars_isDigit _ c h')
  · rcases List.mem_cons.mp h with rfl | h'
    · rfl
    · exact hdig c (natChars_isDigit _ c h')

theorem angleField_filename (bn : List Char) (i : ℕ) (a : ℚ) :
    angleField bn (filenameChars bn i a) = showAngle a := by
  rw [angleField, filenameChars, drop_basename,
    dropWhile_append_stop (pad3 i) '[' _ (pad3_isDigit i) rfl, List.tail_cons,
    takeWhile_append_stop (showAngle a) ']' _ (showAngle_ne_bracket a) rfl]

/-! Section: The rotated order -/

theorem computeOrder_perm {n k : ℕ} (h : k ≤ n) :
    List.Perm (computeOrder n k) (List.range n) := by
  have h2 := List.range'_append_1 0 k (n - k)
  rw [Nat.zero_add, Nat.sub_add_cancel h] at h2
  have hsplit : List.range n = List.range' 0 k ++ List.range' k (n - k) := by
    rw [List.range_eq_range']
    exact h2.symm
  rw [computeOrder, hsplit, List.range_eq_range']
  exact List.perm_append_comm

theorem computeOrder_length {n k : ℕ} (h : k ≤ n) : (computeOrder n k).length = n := by
  simp [computeOrder]
  omega

theorem computeOrder_nodup {n k : ℕ} (h : k ≤ n) : (computeOrder n k).Nodup :=
  (computeOrder_perm h).nodup_iff.mpr (List.nodup_range n)

theorem computeOrder_head {n k : ℕ} (h0 : 0 < n) (h : k ≤ n) :
    (computeOrder n k).head? = some (k % n) := by
  rcases Nat.lt_or_ge k n with hlt | hge
  · have : n - k = (n - k - 1) + 1 := by omega
    rw [computeOrder, this, List.range'_succ]
    simp [Nat.mod_eq_of_lt hlt]
  · have hk : k = n := le_antisymm h hge
    subst hk
    cases k with
    | zero => exact absurd h0 (lt_irrefl 0)
    | succ m =>
      rw [computeOrder, Nat.sub_self]
      simp [List.range_succ_eq_map, Nat.mod_self]

theorem computeOrder_getLast (n s : ℕ) :
    (computeOrder n (s + 1)).getLast? = some s := by
  rw [computeOrder, List.range_succ, ← List.append_assoc]
  exact List.getLast?_concat _

/-! Section: Python list.index -/

theorem pyIndex_none_iff (x : ℚ) : ∀ l : List ℚ, pyIndex x l = none ↔ x ∉ l := by
  intro l
  induction l with
  | nil => simp [pyIndex]
  | cons a t ih =>
    rw [pyIndex]
    by_cases h : a = x
    · subst h; simp
    · rw [if_neg h]
      cases hpt : pyIndex x t with
      | none =>
        have hx : x ∉ t := ih.mp hpt
        constructor
        · intro _ hmem
          rcases List.mem_cons.mp hmem with rfl | hm
          · exact h rfl
          · exact hx hm
        · intro _; rfl
      | some j =>
        have hx : x ∈ t := by
          by_contra hmem
          rw [ih.mpr hmem] at hpt
          exact Option.noConfusion hpt
        constructor
        · intro hcontra; exact Option.noConfusion hcontra
        · intro hnot; exact absurd (List.mem_cons_of_mem a hx) hnot

theorem pyIndex_some (x : ℚ) :
    ∀ (l : List ℚ) (i : ℕ), pyIndex x l = some i →
      l.get? i = some x ∧ x ∉ l.take i := by
  intro l
  induction l with
  | nil => intro i h; exact absurd h Option.noConfusion
  | cons a t ih =>
    intro i h
    by_cases ha : a = x
    · subst ha
      rw [pyIndex, if_pos rfl] at h
      rcases Option.some_inj.mp h with rfl
      simp
    · rw [pyIndex, if_neg ha] at h
      cases hpt : pyIndex x t with
      | none => rw [hpt] at h; exact absurd h Option.noConfusion
      | some j =>
        rw [hpt] at h
        rcases Option.some_inj.mp h with rfl
        rcases ih j hpt with ⟨hget, htake⟩
        refine ⟨by simpa using hget, ?_⟩
        rw [List.take_succ_cons]
        intro hmem
        rcases List.mem_cons.mp hmem with rfl | hmem'
        · exact ha rfl
        · exact htake hmem'

theorem pyIndex_lt (x : ℚ) :
    ∀ (l : List ℚ) (i : ℕ), pyIndex x l = some i → i < l.length := by
  intro l i h
  rcases pyIndex_some x l i h with ⟨hget, -⟩
  exact List.get?_eq_some.mp hget |>.1

/-! Section: Zipping the order with the slices and the angles -/

theorem zip3_map_fst {α : Type} :
    ∀ (o : List ℕ) (st : List α) (an : List ℚ),
      o.length = an.length → st.length = an.length →
      (o.zip (st.zip an)).map Prod.fst = o := by
  intro o
  induction o with
  | nil => intro st an _ _; rfl
  | cons x o ih =>
    intro st an ho hst
    cases an with
    | nil => simp at ho
    | cons a an =>
      cases st with
      | nil => simp at hst
      | cons s st =>
        simp only [List.zip_cons_cons, List.map_cons]
        rw [ih st an (by simpa using ho) (by simpa using hst)]

theorem zip3_map_trd {α : Type} :
    ∀ (o : List ℕ) (st : List α) (an : List ℚ),
      o.length = an.length → st.length = an.length →
      (o.zip (st.zip an)).map (fun p => p.2.2) = an := by
  intro o
  induction o with
  | nil =>
    intro st an ho _
    cases an with
    | nil => rfl
    | cons a an => simp at ho
  | cons x o ih =>
    intro st an ho hst
    cases an with
    | nil => simp at ho
    | cons a an =>
      cases st with
      | nil => simp at hst
      | cons s st =>
        simp only [List.zip_cons_cons, List.map_cons]
        rw [ih st an (by simpa using ho) (by simpa using hst)]

/-! Section: Parsing the tilt file -/

theorem parse_angles_isSome_iff :
    ∀ lines : List (Option ℚ), (parse_angles lines).isSome ↔ none ∉ lines := by
  intro lines
  induction lines with
  | nil => simp [parse_angles]
  | cons a t ih =>
    cases a with
    | none => simp [parse_angles]
    | some q =>
      rw [parse_angles]
      constructor
      · intro hs hmem
        have hts : (parse_angles t).isSome := by
          cases hpt : parse_angles t with
          | none => rw [hpt] at hs; simp at hs
          | some vs => simp
        rcases List.mem_cons.mp hmem with hno | hm
        · exact Option.noConfusion hno
        · exact (ih.mp hts) hm
      · intro hmem
        have hm : none ∉ t := fun hh => hmem (List.mem_cons_of_mem _ hh)
        rcases Option.isSome_iff_exists.mp (ih.mpr hm) with ⟨vs, hvs⟩
        rw [hvs]
        simp

theorem parse_angles_of_vals :
    ∀ vals : List ℚ, parse_angles (vals.map some) = some (vals.map round1) := by
  intro vals
  induction vals with
  | nil => rfl
  | cons v t ih => simp [parse_angles, ih]

/-! Section: Which line's match each metadata variable ends up holding -/

/-- First-some choice, the effect of rebinding a variable: a new match
shadows whatever the variable held before. -/
def fallback (a b : Option ℚ) : Option ℚ :=
  match a with
  | some x => some x
  | none => b

/-- Effect of one line on `start_angle`: the first pattern of the chain. -/
def effStart (l : List Char) : Option ℚ := searchLabeled startLabel l

/-- Effect of one line on `step`: reached only when the start pattern
does not match the line. -/
def effLowStep (l : List Char) : Option ℚ :=
  match searchLabeled startLabel l with
  | some _ => none
  | none => searchLabeled lowStepLabel l

/-- Effect of one line on `step_high`. -/
def effHighStep (l : List Char) : Option ℚ :=
  match searchLabeled startLabel l with
  | some _ => none
  | none =>
    match searchLabeled lowStepLabel l with
    | some _ => none
    | none => searchLabeled highStepLabel l

/-- Effect of one line on `min_angle`. -/
def effMin (l : List Char) : Option ℚ :=
  match searchLabeled startLabel l with
  | some _ => none
  | none =>
    match searchLabeled lowStepLabel l with
    | some _ => none
    | none =>
      match searchLabeled highStepLabel l with
      | some _ => none
      | none => searchLabeled minLabel l

/-- Effect of one line on `max_angle`. -/
def effMax (l : List Char) : Option ℚ :=
  match searchLabeled startLabel l with
  | some _ => none
  | none =>
    match searchLabeled lowStepLabel l with
    | some _ => none
    | none =>
      match searchLabeled highStepLabel l with
      | some _ => none
      | none =>
        match searchLabeled minLabel l with
        | some _ => none
        | none => searchLabeled maxLabel l

theorem fallback_none_right (a : Option ℚ) : fallback a none = a := by
  cases a <;> rfl

theorem stepLine_start (acc : MetaAcc) (l : List Char) :
    (stepLine acc l).start? = fallback (effStart l) acc.start? := by
  unfold stepLine effStart fallback
  cases searchLabeled startLabel l <;>
    cases searchLabeled lowStepLabel l <;>
      cases searchLabeled highStepLabel l <;>
        cases searchLabeled minLabel l <;>
          cases searchLabeled maxLabel l <;> rfl

theorem stepLine_step (acc : MetaAcc) (l : List Char) :
    (stepLine acc l).step? = fallback (effLowStep l) acc.step? := by
  unfold stepLine effLowStep fallback
  cases searchLabeled startLabel l <;>
    cases searchLabeled lowStepLabel l <;>
      cases searchLabeled highStepLabel l <;>
        cases searchLabeled minLabel l <;>
          cases searchLabeled maxLabel l <;> rfl

theorem stepLine_stepHigh (acc : MetaAcc) (l : List Char) :
    (stepLine acc l).stepHigh? = fallback (effHighStep l) acc.stepHigh? := by
  unfold stepLine effHighStep fallback
  cases searchLabeled startLabel l <;>
    cases searchLabeled lowStepLabel l <;>
      cases searchLabeled highStepLabel l <;>
        cases searchLabeled minLabel l <;>
          cases searchLabeled maxLabel l <;> rfl

theorem stepLine_min (acc : MetaAcc) (l : List Char) :
    (stepLine acc l).minAngle? = fallback (effMin l) acc.minAngle? := by
  unfold stepLine effMin fallback
  cases searchLabeled startLabel l <;>
    cases searchLabeled lowStepLabel l <;>
      cases searchLabeled highStepLabel l <;>
        cases searchLabeled minLabel l <;>
          cases searchLabeled maxLabel l <;> rfl

theorem stepLine_max (acc : MetaAcc) (l : List Char) :
    (stepLine acc l).maxAngle? = fallback (effMax l) acc.maxAngle? := by
  unfold stepLine effMax fallback
  cases searchLabeled startLabel l <;>
    cases searchLabeled lowStepLabel l <;>
      cases searchLabeled highStepLabel l <;>
        cases searchLabeled minLabel l <;>
          cases searchLabeled maxLabel l <;> rfl

theorem getLast?_cons_fallback (v : ℚ) (rest : List ℚ) :
    (v :: rest).getLast? = fallback rest.getLast? (some v) := by
  cases rest with
  | nil => rfl
  | cons c t =>
    rw [List.getLast?_cons_cons]
    cases hl : (c :: t).getLast? with
    | none => exact absurd (List.getLast?_eq_none_iff.mp hl) (List.cons_ne_nil c t)
    | some w => rfl

theorem foldl_stepLine_field (g : MetaAcc → Option ℚ) (eff : List Char → Option ℚ)
    (hstep : ∀ acc l, g (stepLine acc l) = fallback (eff l) (g acc)) :
    ∀ (lines : List (List Char)) (acc : MetaAcc),
      g (List.foldl stepLine acc lines) =
        fallback ((lines.filterMap eff).getLast?) (g acc) := by
  intro lines
  induction lines with
  | nil => intro acc; rfl
  | cons l ls ih =>
    intro acc
    rw [List.foldl_cons, ih, hstep]
    cases he : eff l with
    | none => simp only [List.filterMap_cons, he]; rfl
    | some v =>
      simp only [List.filterMap_cons, he]
      rw [getLast?_cons_fallback]
      cases (ls.filterMap eff).getLast? <;> rfl

/-! Section: The number pattern needs a decimal point -/

theorem signSplit_snd_sublist (l : List Char) : List.Sublist (signSplit l).2 l := by
  cases l with
  | nil => exact List.Sublist.refl _
  | cons c rest =>
    simp only [signSplit]
    split
    · exact List.sublist_cons_self _ _
    · split
      · exact List.sublist_cons_self _ _
      · exact List.Sublist.refl _

theorem numAtCore_none (sgn : ℚ) (m : List Char) (h : '.' ∉ m) :
    numAtCore sgn m = none := by
  rw [numAtCore]
  split
  · rfl
  · rename_i d1 r2 heq1 heq2
    exfalso
    have hmem : '.' ∈ m.dropWhile Char.isDigit := by
      rw [heq1]
      exact List.mem_cons_self _ _
    exact h ((List.dropWhile_sublist _).subset hmem)
  · rfl

theorem findNum_none (l : List Char) (h : '.' ∉ l) : findNum l = none := by
  induction l with
  | nil => rfl
  | cons c rest ih =>
    rw [findNum]
    have h1 : numAt (c :: rest) = none := by
      rw [numAt]
      exact numAtCore_none _ _
        (fun hm => h ((signSplit_snd_sublist (c :: rest)).subset hm))
    rw [h1]
    exact ih (fun hm => h (List.mem_cons_of_mem c hm))

theorem afterLabel_sublist (lab : List Char) :
    ∀ (l r : List Char), afterLabel lab l = some r → List.Sublist r l := by
  intro l
  induction l with
  | nil =>
    intro r h
    rw [afterLabel] at h
    split at h
    · rcases Option.some_inj.mp h with rfl
      exact List.Sublist.refl _
    · exact absurd h Option.noConfusion
  | cons c rest ih =>
    intro r h
    rw [afterLabel] at h
    split at h
    · rcases Option.some_inj.mp h with rfl
      exact List.drop_sublist _ _
    · exact (ih r h).cons c

theorem searchLabeled_none (lab l : List Char) (h : '.' ∉ l) :
    searchLabeled lab l = none := by
  rw [searchLabeled]
  cases hal : afterLabel lab l with
  | none => rfl
  | some r =>
    have hr : '.' ∉ r := fun hm => h ((afterLabel_sublist lab l r hal).subset hm)
    simp [findNum_none r hr]

/-! Section: Unfolding a successful split -/

theorem split_mrc_ok {α : Type} (metaLines : List (List Char)) (tiltLines : List (Option ℚ))
    (stack : List α) (bn : List Char) (angles : List ℚ) (start : ℚ) (s : ℕ)
    (hp : parse_angles tiltLines = some angles)
    (hm : (scanMeta metaLines).start? = some start)
    (hi : pyIndex start angles = some s) :
    split_mrc metaLines tiltLines stack bn =
      Except.ok (((computeOrder angles.length (s + 1)).zip (stack.zip angles)).map
        (fun p => (filenameChars bn p.1 p.2.2, p.2.1))) := by
  simp only [split_mrc, hp, hm, hi]

/-! Section: The claims -/

/-- Claim C1, counterexample.  In the spec scenario (angles
`[0.0, -10.0, -20.0, 10.0, 20.0]`, start angle `0.0`), the emitted files
are exactly `scenExpected`: no file `TS_001[-10.0]_fractions.mrc` is
written (the slice at physical index 1 goes to order index 002), and the
last file written is `TS_000[20.0]_fractions.mrc`, not
`TS_004[0.0]_fractions.mrc` — the pivot slice is emitted first, under
order index 001. -/
theorem claimC1_counterexample :
    split_mrc scenMeta scenTilt scenStack bnTS = Except.ok scenExpected ∧
    filenameChars bnTS 1 (-10) ∉ scenExpected.map Prod.fst ∧
    (scenExpected.map Prod.fst).getLast? ≠ some (filenameChars bnTS 4 0) := by
  have h1 : filenameChars bnTS 1 (-10) = "TS_001[-10.0]_fractions.mrc".toList := by
    with_unfolding_all rfl
  have h2 : filenameChars bnTS 4 0 = "TS_004[0.0]_fractions.mrc".toList := by
    with_unfolding_all rfl
  refine ⟨by with_unfolding_all rfl, ?_, ?_⟩
  · rw [h1]; decide
  · rw [h2]; decide

/-- Claim C1, amended.  For the scenario the pivot is located at index 0
and the order is `[1,2,3,4,0]`, as the claim says; but the physical
slice at position i is emitted under order index `order[i]` with angle
`angles[i]`: slice 0 (the pivot, angle 0.0) is written first as
`TS_001[0.0]_fractions.mrc`, slice 1 (angle -10.0) as
`TS_002[-10.0]_fractions.mrc`, and slice 4 (angle 20.0) is written last
as `TS_000[20.0]_fractions.mrc`. -/
theorem claimC1_amended :
    parse_angles scenTilt = some [(0 : ℚ), -10, -20, 10, 20] ∧
    pyIndex 0 [(0 : ℚ), -10, -20, 10, 20] = some 0 ∧
    computeOrder 5 (0 + 1) = [1, 2, 3, 4, 0] ∧
    split_mrc scenMeta scenTilt scenStack bnTS = Except.ok scenExpected := by
  exact ⟨by with_unfolding_all rfl, by with_unfolding_all rfl, by decide,
    by with_unfolding_all rfl⟩

/-- Parameters file for claim C2: the start tilt angle is `3.45`. -/
def c2Meta : List (List Char) := ["Start tilt angle = 3.45".toList]

/-- Tilt file for claim C2: the single angle `3.5`. -/
def c2Tilt : List (Option ℚ) := [some ((7 : ℚ) / 2)]

/-- Claim C2, counterexample.  The code never rounds `start_angle`: with
the parameters file reporting `3.45` and the angle list containing
`3.5`, the parsed start angle is the exact value `3.45`, the parsed
angle list is `[3.5]`, and `list.index` fails — the lookup raises
instead of succeeding on the rounded value. -/
theorem claimC2_counterexample :
    (scanMeta c2Meta).start? = some ((69 : ℚ) / 20) ∧
    parse_angles c2Tilt = some [(7 : ℚ) / 2] ∧
    (69 : ℚ) / 20 ≠ (7 : ℚ) / 2 ∧
    split_mrc c2Meta c2Tilt [(0 : ℕ)] bnTS = Except.error SplitError.startAngleNotFound := by
  exact ⟨by with_unfolding_all rfl, by with_unfolding_all rfl, by norm_num,
    by with_unfolding_all rfl⟩

/-- Claim C2, amended.  Pivot lookup compares the start angle exactly as
parsed (not rounded) against the one-decimal-rounded angle list: it
returns the index of the first exact equality and fails when there is
none; in particular a parameters-file start angle of `3.45` against an
angle list containing `3.5` makes the lookup fail. -/
theorem claimC2_amended (start : ℚ) (angles : List ℚ) :
    (pyIndex start angles = none ↔ start ∉ angles) ∧
    (∀ i : ℕ, pyIndex start angles = some i →
      angles.get? i = some start ∧ start ∉ angles.take i) ∧
    split_mrc c2Meta c2Tilt [(0 : ℕ)] bnTS = Except.error SplitError.startAngleNotFound :=
  ⟨pyIndex_none_iff start angles, fun i h => pyIndex_some start angles i h,
    by with_unfolding_all rfl⟩

/-- Witness for the amended claim C2, at start angle `2` and angle list
`[3.5, 2]`. -/
theorem claimC2_amended_witness :
    ([(7 : ℚ) / 2, 2] : List ℚ).get? 1 = some 2 ∧ (2 : ℚ) ∉ ([(7 : ℚ) / 2, 2] : List ℚ).take 1 :=
  (claimC2_amended 2 [(7 : ℚ) / 2, 2]).2.1 1 (by with_unfolding_all rfl)

/-- Tilt file for claim C3: four angles against a five-slice stack. -/
def c3Tilt : List (Option ℚ) := [some 0, some (-10), some (-20), some 10]

/-- Claim C3, counterexample.  With 4 angles and a 5-frame stack, no
bounds error is raised: `zip` silently truncates and four files are
written. -/
theorem claimC3_counterexample :
    split_mrc scenMeta c3Tilt scenStack bnTS = Except.ok
      [("TS_001[0.0]_fractions.mrc".toList, 10),
       ("TS_002[-10.0]_fractions.mrc".toList, 11),
       ("TS_003[-20.0]_fractions.mrc".toList, 12),
       ("TS_000[10.0]_fractions.mrc".toList, 13)] := by
  with_unfolding_all rfl

/-- Claim C3, amended.  When the parse and pivot lookup succeed, a
length disagreement between the angle list and the stack raises nothing:
`zip` truncates to the shorter sequence and exactly
`min angles.length stack.length` files are written. -/
theorem claimC3_amended {α : Type} (metaLines : List (List Char))
    (tiltLines : List (Option ℚ)) (stack : List α) (bn : List Char)
    (angles : List ℚ) (start : ℚ) (s : ℕ)
    (hp : parse_angles tiltLines = some angles)
    (hm : (scanMeta metaLines).start? = some start)
    (hi : pyIndex start angles = some s) :
    (split_mrc metaLines tiltLines stack bn).toOption.map List.length =
      some (min angles.length stack.length) := by
  have hk : s + 1 ≤ angles.length := pyIndex_lt start angles s hi
  rw [split_mrc_ok metaLines tiltLines stack bn angles start s hp hm hi]
  simp [Except.toOption, List.length_zip, computeOrder_length hk]
  omega

/-- Witness for the amended claim C3: 4 angles, 5 slices, 4 files. -/
theorem claimC3_amended_witness :
    (split_mrc scenMeta c3Tilt scenStack bnTS).toOption.map List.length = some (min 4 5) :=
  claimC3_amended scenMeta c3Tilt scenStack bnTS [(0 : ℚ), -10, -20, 10] 0 0
    (by with_unfolding_all rfl) (by with_unfolding_all rfl) (by with_unfolding_all rfl)

/-- Parameters file for claim C4: the start-angle pattern matches on two
lines, with values `1.0` and `2.0`. -/
def c4Meta : List (List Char) :=
  ["Start tilt angle = 1.0".toList, "Start tilt angle = 2.0".toList]

/-- Claim C4, counterexample.  When the start-angle pattern matches two
lines, the kept value is `2.0`, the match of the *last* matching line —
not `1.0`, the match of the earliest line as the claim states. -/
theorem claimC4_counterexample :
    (scanMeta c4Meta).start? = some 2 ∧ (scanMeta c4Meta).start? ≠ some 1 := by
  have h : (scanMeta c4Meta).start? = some 2 := by with_unfolding_all rfl
  refine ⟨h, ?_⟩
  rw [h]
  intro hc
  exact absurd (Option.some_inj.mp hc) (by norm_num)

/-- Claim C4, amended.  Each matching line rebinds the variable, so the
value kept for each of the five labels is the numeric match of the
*last* line on which that label's pattern fires (a line fires for at
most one label: the first pattern of the if/elif chain that matches). -/
theorem claimC4_amended (lines : List (List Char)) :
    (scanMeta lines).start? = (lines.filterMap effStart).getLast? ∧
    (scanMeta lines).step? = (lines.filterMap effLowStep).getLast? ∧
    (scanMeta lines).stepHigh? = (lines.filterMap effHighStep).getLast? ∧
    (scanMeta lines).minAngle? = (lines.filterMap effMin).getLast? ∧
    (scanMeta lines).maxAngle? = (lines.filterMap effMax).getLast? :=
  ⟨(foldl_stepLine_field MetaAcc.start? effStart stepLine_start lines
      ⟨none, none, none, none, none⟩).trans (fallback_none_right _),
   (foldl_stepLine_field MetaAcc.step? effLowStep stepLine_step lines
      ⟨none, none, none, none, none⟩).trans (fallback_none_right _),
   (foldl_stepLine_field MetaAcc.stepHigh? effHighStep stepLine_stepHigh lines
      ⟨none, none, none, none, none⟩).trans (fallback_none_right _),
   (foldl_stepLine_field MetaAcc.minAngle? effMin stepLine_min lines
      ⟨none, none, none, none, none⟩).trans (fallback_none_right _),
   (foldl_stepLine_field MetaAcc.maxAngle? effMax stepLine_max lines
      ⟨none, none, none, none, none⟩).trans (fallback_none_right _)⟩

/-- Claim C5, counterexample.  With an empty angle list, `split_mrc`
does not complete: `list.index` on the empty list raises (the start
angle cannot be found), so the call errors out — though indeed no file
is written. -/
theorem claimC5_counterexample :
    split_mrc scenMeta [] [(0 : ℕ)] bnTS = Except.error SplitError.startAngleNotFound := by
  with_unfolding_all rfl

/-- Claim C5, amended.  Whenever the parameters file yields a start
angle, an empty angle list (N=0) makes `split_mrc` raise at the pivot
lookup (`list.index` on `[]`); no file is written, but the call does not
complete without error. -/
theorem claimC5_amended {α : Type} (metaLines : List (List Char)) (stack : List α)
    (bn : List Char) (start : ℚ)
    (hm : (scanMeta metaLines).start? = some start) :
    split_mrc metaLines [] stack bn = Except.error SplitError.startAngleNotFound := by
  simp [split_mrc, parse_angles, hm, pyIndex]

/-- Witness for the amended claim C5. -/
theorem claimC5_amended_witness :
    split_mrc scenMeta [] ([] : List ℕ) bnTS = Except.error SplitError.startAngleNotFound :=
  claimC5_amended scenMeta ([] : List ℕ) bnTS 0 (by with_unfolding_all rfl)

/-- Claim C6.  For every N ≥ 1 and pivot index s < N the computed order
(the source computes it from `start_idx = s + 1`) is a permutation of
`[0, N)` of length N that starts at `(s+1) % N` and ends at `s`; for
N = 1 the order is `[0]`. -/
theorem claimC6_order (N s : ℕ) (hN : 1 ≤ N) (hs : s < N) :
    List.Perm (computeOrder N (s + 1)) (List.range N) ∧
    (computeOrder N (s + 1)).length = N ∧
    (computeOrder N (s + 1)).head? = some ((s + 1) % N) ∧
    (computeOrder N (s + 1)).getLast? = some s ∧
    computeOrder 1 (0 + 1) = [0] := by
  have hk : s + 1 ≤ N := hs
  exact ⟨computeOrder_perm hk, computeOrder_length hk,
    computeOrder_head (by omega) hk, computeOrder_getLast N s, by decide⟩

/-- Witness for claim C6, at N = 5, s = 0. -/
theorem claimC6_order_witness :
    List.Perm (computeOrder 5 (0 + 1)) (List.range 5) ∧
    (computeOrder 5 (0 + 1)).length = 5 ∧
    (computeOrder 5 (0 + 1)).head? = some ((0 + 1) % 5) ∧
    (computeOrder 5 (0 + 1)).getLast? = some 0 ∧
    computeOrder 1 (0 + 1) = [0] :=
  claimC6_order 5 0 (by decide) (by decide)

/-- Claim C7.  Under the preconditions (angle list parses, pivot found,
angle count equals frame count), the multiset of angle renderings
embedded in the emitted file names equals the multiset of renderings of
the parsed (rounded) input angles: no angle is lost, duplicated or
altered. -/
theorem claimC7_roundtrip {α : Type} (metaLines : List (List Char))
    (tiltLines : List (Option ℚ)) (stack : List α) (bn : List Char)
    (angles : List ℚ) (start : ℚ) (s : ℕ)
    (hp : parse_angles tiltLines = some angles)
    (hm : (scanMeta metaLines).start? = some start)
    (hi : pyIndex start angles = some s)
    (hlen : stack.length = angles.length) :
    (split_mrc metaLines tiltLines stack bn).toOption.map
        (fun ws => Multiset.ofList (ws.map (fun w => angleField bn w.1))) =
      some (Multiset.ofList (angles.map showAngle)) := by
  have hk : s + 1 ≤ angles.length := pyIndex_lt start angles s hi
  have hord : (computeOrder angles.length (s + 1)).length = angles.length :=
    computeOrder_length hk
  rw [split_mrc_ok metaLines tiltLines stack bn angles start s hp hm hi]
  have hfun : ((fun w : List Char × α => angleField bn w.1) ∘
      (fun p : ℕ × (α × ℚ) => (filenameChars bn p.1 p.2.2, p.2.1))) =
      (fun p : ℕ × (α × ℚ) => showAngle p.2.2) := by
    funext p
    exact angleField_filename bn p.1 p.2.2
  have hlist : ((((computeOrder angles.length (s + 1)).zip (stack.zip angles)).map
      (fun p => (filenameChars bn p.1 p.2.2, p.2.1))).map (fun w => angleField bn w.1))
      = angles.map showAngle := by
    rw [List.map_map, hfun,
      show (fun p : ℕ × (α × ℚ) => showAngle p.2.2) =
        showAngle ∘ (fun p : ℕ × (α × ℚ) => p.2.2) from rfl,
      ← List.map_map, zip3_map_trd _ _ _ hord hlen]
  exact congrArg (fun t : List (List Char) => some (Multiset.ofList t)) hlist

/-- Witness for claim C7, on the spec scenario. -/
theorem claimC7_roundtrip_witness :
    (split_mrc scenMeta scenTilt scenStack bnTS).toOption.map
        (fun ws => Multiset.ofList (ws.map (fun w => angleField bnTS w.1))) =
      some (Multiset.ofList (([(0 : ℚ), -10, -20, 10, 20]).map showAngle)) :=
  claimC7_roundtrip scenMeta scenTilt scenStack bnTS [(0 : ℚ), -10, -20, 10, 20] 0 0
    (by with_unfolding_all rfl) (by with_unfolding_all rfl) (by with_unfolding_all rfl)
    (by with_unfolding_all rfl)

/-- Claim C8.  `parse_angles` parses one float per line and succeeds
exactly when every line parses as a float; on success it returns the
values rounded to one decimal place, in file order.  (A line is
abstracted to its float-parse result.) -/
theorem claimC8_parse (lines : List (Option ℚ)) (vals : List ℚ) :
    ((parse_angles lines).isSome ↔ none ∉ lines) ∧
    (lines = vals.map some → parse_angles lines = some (vals.map round1)) :=
  ⟨parse_angles_isSome_iff lines,
    fun h => h ▸ parse_angles_of_vals vals⟩

/-- Witness for claim C8: the line `3.47` parses and rounds to `3.5`. -/
theorem claimC8_parse_witness :
    parse_angles [some ((347 : ℚ) / 100)] = some [(7 : ℚ) / 2] := by
  have h := (claimC8_parse [some ((347 : ℚ) / 100)] [(347 : ℚ) / 100]).2 rfl
  rw [h]
  with_unfolding_all rfl

/-- Claim C9.  Under the preconditions (angle list parses, pivot found,
angle count equals frame count), the paths of the files emitted by one
split call are pairwise distinct: each embeds a distinct zero-padded
order index drawn from a permutation of `[0, N)`. -/
theorem claimC9_distinct {α : Type} (metaLines : List (List Char))
    (tiltLines : List (Option ℚ)) (stack : List α) (bn : List Char)
    (angles : List ℚ) (start : ℚ) (s : ℕ)
    (hp : parse_angles tiltLines = some angles)
    (hm : (scanMeta metaLines).start? = some start)
    (hi : pyIndex start angles = some s)
    (hlen : stack.length = angles.length) :
    ∀ ws, split_mrc metaLines tiltLines stack bn = Except.ok ws →
      (ws.map Prod.fst).Nodup := by
  intro ws hws
  have hk : s + 1 ≤ angles.length := pyIndex_lt start angles s hi
  have hord : (computeOrder angles.length (s + 1)).length = angles.length :=
    computeOrder_length hk
  rw [split_mrc_ok metaLines tiltLines stack bn angles start s hp hm hi] at hws
  injection hws with hws'
  subst hws'
  apply List.Nodup.of_map (idxField bn)
  rw [List.map_map, List.map_map]
  have hfun : ((idxField bn ∘ Prod.fst) ∘
      (fun p : ℕ × (α × ℚ) => (filenameChars bn p.1 p.2.2, p.2.1)))
      = (Prod.fst : ℕ × (α × ℚ) → ℕ) := by
    funext p
    exact idxField_filename bn p.1 p.2.2
  rw [hfun, zip3_map_fst _ _ _ hord hlen]
  exact computeOrder_nodup hk

/-- Witness for claim C9, on the spec scenario. -/
theorem claimC9_distinct_witness : (scenExpected.map Prod.fst).Nodup :=
  claimC9_distinct scenMeta scenTilt scenStack bnTS [(0 : ℚ), -10, -20, 10, 20] 0 0
    (by with_unfolding_all rfl) (by with_unfolding_all rfl) (by with_unfolding_all rfl)
    (by with_unfolding_all rfl) scenExpected (by with_unfolding_all rfl)

/-- Claim C10.  The metadata number pattern `[+-]?\d+\.\d+` cannot match
a line without a decimal point, so an integer-valued field is not
extracted; in particular, on a parameters file whose only line is
`Start tilt angle = 3` the start angle stays unbound and `split_mrc`
fails before writing any file, instead of using the integer value. -/
theorem claimC10_no_integer_match (lab l : List Char) (h : '.' ∉ l) :
    searchLabeled lab l = none ∧
    split_mrc ["Start tilt angle = 3".toList] [some 0] [(0 : ℕ)] bnTS =
      Except.error SplitError.startAngleMissing :=
  ⟨searchLabeled_none lab l h, by with_unfolding_all rfl⟩

/-- Witness for claim C10, on the line `Start tilt angle = 3`. -/
theorem claimC10_no_integer_match_witness :
    ('.' ∉ "Start tilt angle = 3".toList) ∧
    (searchLabeled startLabel "Start tilt angle = 3".toList = none ∧
     split_mrc ["Start tilt angle = 3".toList] [some 0] [(0 : ℕ)] bnTS =
       Except.error SplitError.startAngleMissing) :=
  ⟨by decide, claimC10_no_integer_match startLabel "Start tilt angle = 3".toList (by decide)⟩

end G2W
